/-
Verification of the distributed task-graph scheduler (mrocklin/distributed3).

Each namespace below is a shallow embedding of one part of the source:

* `TaskErred`     — `Scheduler.stimulus_task_erred`   (distributed/scheduler.py)
* `Batched`       — `BatchedSend.send`                (distributed/batched.py)
* `IdleSaturated` — `Scheduler.check_idle_saturated`  (distributed/scheduler.py)

Python dicts and sets over string keys become `Finset String` / association
lists; Python float arithmetic on occupancies becomes exact `ℚ` arithmetic.
-/
import Mathlib

namespace TaskErred

/-- Task states used by `stimulus_task_erred`. -/
inductive TState where
  | released | waiting | noworker | processing | memory | erred | forgotten
deriving DecidableEq, Repr

/-- The slice of `TaskState` that `stimulus_task_erred` reads and writes:
`state` and `retries`. -/
structure ETask where
  state : TState
  retries : Int
deriving DecidableEq, Repr

/-- The recommendation emitted by `stimulus_task_erred`: nothing, a
`waiting` recommendation, or an `erred` recommendation carrying the
reported exception and traceback payloads. -/
inductive ERec where
  | none
  | waiting
  | erred (exception traceback : String)
deriving DecidableEq, Repr

/-- `Scheduler.stimulus_task_erred` (scheduler.py): if the task is
processing and `retries > 0`, decrement `retries` and recommend `waiting`;
if processing with `retries ≤ 0`, recommend `erred` with the reported
exception/traceback; otherwise do nothing.  Returns the updated task and
the recommendation. -/
def stimulus_task_erred (ts : ETask) (exception traceback : String) :
    ETask × ERec :=
  if ts.state = TState.processing then
    let retries := ts.retries
    if retries > 0 then
      ({ ts with retries := retries - 1 }, ERec.waiting)
    else
      (ts, ERec.erred exception traceback)
  else
    (ts, ERec.none)

end TaskErred

namespace Batched

/-- The state of a `BatchedSend` that `send` touches.  `comm_closed = none`
models `self.comm is None` (before `start`); `some true` a closed comm;
`some false` an open comm.  `next_deadline` is `None` or a time. -/
structure BState where
  buffer : List String
  message_count : Nat
  comm_closed : Option Bool
  next_deadline : Option ℚ
  waker : Bool
deriving DecidableEq, Repr

/-- `BatchedSend.send` (batched.py): a total, pure function — the source
has no await and no raise.  It extends the buffer with the messages in
order, adds their number to `message_count`, and sets the waker event only
when the comm exists, is not closed, and no deadline is pending. -/
def send (st : BState) (msgs : List String) : BState :=
  let st1 := { st with
               message_count := st.message_count + msgs.length,
               buffer := st.buffer ++ msgs }
  if ((match st1.comm_closed with
       | some closed => !closed
       | none => false) && st1.next_deadline == none) then
    { st1 with waker := true }
  else
    st1

end Batched

namespace IdleSaturated

/-- The per-worker fields read by `check_idle_saturated`: `occupancy`,
`ncores` and `len(ws.processing)`. -/
structure WState where
  occupancy : ℚ
  ncores : ℕ
  nprocessing : ℕ
deriving DecidableEq, Repr

/-- The scheduler fields read and written by `check_idle_saturated`. -/
structure SState where
  total_ncores : ℕ
  total_occupancy : ℚ
  idle : Finset String
  saturated : Finset String
deriving DecidableEq

/-- `Scheduler.check_idle_saturated` (scheduler.py).  Python float
arithmetic becomes exact `ℚ`; the literals 0.4 and 1.9 become 2/5 and
19/10.  The early return on `total_ncores == 0` is the identity on the
scheduler state. -/
def check_idle_saturated (st : SState) (addr : String) (ws : WState) : SState :=
  if st.total_ncores = 0 then st
  else
    let occ : ℚ := ws.occupancy
    let nc : ℚ := (ws.ncores : ℚ)
    let p : ℚ := (ws.nprocessing : ℚ)
    let avg : ℚ := st.total_occupancy / (st.total_ncores : ℚ)
    if p < nc ∨ occ / nc < avg / 2 then
      { st with idle := insert addr st.idle, saturated := st.saturated.erase addr }
    else
      let st1 := { st with idle := st.idle.erase addr }
      let pending : ℚ := occ * (p - nc) / p / nc
      -- the source conditions `p > nc`, `pending > 0.4`, `pending > 1.9*avg`,
      -- written with flipped `<`
      if nc < p ∧ 2/5 < pending ∧ 19/10 * avg < pending then
        { st1 with saturated := insert addr st1.saturated }
      else
        { st1 with saturated := st1.saturated.erase addr }

end IdleSaturated

namespace ValidWorkers

/-- The restriction fields of a task read by `Scheduler.valid_workers`.
Resource quantities are modelled as `ℚ`. -/
structure VTask where
  worker_restrictions : Finset String
  host_restrictions : Finset String
  resource_restrictions : List (String × ℚ)
deriving DecidableEq

/-- The scheduler fields read by `valid_workers`: the known workers
(`self.worker_info`), alias resolution (`coerce_hostname`), the host table
(`self.host_info`, split into its key set and its `addresses` column) and
the per-resource supply table (`self.resources[r].items()`). -/
structure SchedState where
  worker_info : Finset String
  coerce_hostname : String → String
  known_hosts : Finset String
  host_addresses : String → Finset String
  resource_entries : String → List (String × ℚ)

/-- The union `set.union(*ss)` over `host_info[h]['addresses']` for each
coerced restricted host that is present in `host_info` (empty union when no
restricted host is known). -/
def hostUnion (st : SchedState) (ts : VTask) : Finset String :=
  ts.host_restrictions.biUnion (fun h =>
    if st.coerce_hostname h ∈ st.known_hosts then
      st.host_addresses (st.coerce_hostname h)
    else ∅)

/-- `{w for w, supplied in self.resources[resource].items() if supplied >= required}`. -/
def resourceSet (st : SchedState) (rq : String × ℚ) : Finset String :=
  (((st.resource_entries rq.1).filter (fun p => rq.2 ≤ p.2)).map Prod.fst).toFinset

/-- `ww = set.intersection(*w.values())` — the source guards this with
`if ts.resource_restrictions:` so the list is never empty there; the `[]`
case below is unreachable under that guard. -/
def resourceInter (st : SchedState) : List (String × ℚ) → Finset String
  | [] => ∅
  | rq :: rest => rest.foldl (fun acc q => acc ∩ resourceSet st q) (resourceSet st rq)

/-- `Scheduler.valid_workers` (scheduler.py).  `none` models the Python
return value `True` ("all workers are valid"); `some s` models the set of
valid worker addresses.  Note the source combines the host-restriction
worker set with `s |= ss` — a union — when worker restrictions are also
set, and combines the resource sets with `s &= ww` — an intersection. -/
def valid_workers (st : SchedState) (ts : VTask) : Option (Finset String) :=
  let s : Option (Finset String) := none
  let s1 := if ts.worker_restrictions ≠ ∅ then
      some (ts.worker_restrictions.filter (fun w => w ∈ st.worker_info))
    else s
  let s2 := if ts.host_restrictions ≠ ∅ then
      (match s1 with
       | none => some (hostUnion st ts)
       | some s0 => some (s0 ∪ hostUnion st ts))
    else s1
  let s3 := if ts.resource_restrictions ≠ [] then
      (match s2 with
       | none => some (resourceInter st ts.resource_restrictions)
       | some s0 => some (s0 ∩ resourceInter st ts.resource_restrictions))
    else s2
  s3

/-- The claim's reading of `valid_workers` for a task with both worker and
host restrictions: all workers, intersected with the worker-restriction
set, intersected with the union of workers on restricted hosts,
intersected with each resource-restriction worker set.  (Defined from the
spec sentence, for comparison with `valid_workers`.) -/
def valid_workers_claimed (st : SchedState) (ts : VTask) : Finset String :=
  let s := st.worker_info ∩ ts.worker_restrictions
  let s1 := s ∩ hostUnion st ts
  ts.resource_restrictions.foldl (fun acc rq => acc ∩ resourceSet st rq) s1

/-- A concrete scheduler with two workers on two hosts. -/
def cexSt : SchedState :=
  { worker_info := {"w1", "w2"}
    coerce_hostname := fun h => h
    known_hosts := {"h1", "h2"}
    host_addresses := fun h => if h = "h1" then {"w1"} else if h = "h2" then {"w2"} else ∅
    resource_entries := fun _ => [] }

/-- A task restricted to worker `w1` and to host `h2` (which holds only
`w2`). -/
def cexTask : VTask :=
  { worker_restrictions := {"w1"}
    host_restrictions := {"h2"}
    resource_restrictions := [] }

end ValidWorkers

namespace MissingData

/-- Task states (the `released/waiting/no-worker/processing/memory/erred/
forgotten` strings of the source). -/
inductive TState where
  | released | waiting | noworker | processing | memory | erred | forgotten
deriving DecidableEq, Repr

/-- The slice of `TaskState` read and written by `stimulus_missing_data`:
`state`, `who_has`, and `run_spec` (the claim's case split).  The mirror
updates of each holder's `has_what`/`nbytes` in the source exactly track
`who_has` and are elided. -/
structure MTask where
  state : TState
  who_has : Finset String
  run_spec : Bool
deriving DecidableEq

/-- `Scheduler.stimulus_missing_data` (scheduler.py).  `worker` is the
errant worker reported by the stimulus — the source only logs it and never
uses it to update `who_has`.  When the `cause` task is in memory the
source clears `cts.who_has` entirely (`for ws in cts.who_has: ...;
cts.who_has.clear()` — the "extreme" behavior flagged by its own TODO) and
recommends `cause → released`; it never consults `run_spec` and never
recommends `forgotten`.  Returns the updated cause task and the ordered
recommendation list handed to `self.transitions`. -/
def stimulus_missing_data (key cause worker : String)
    (keyTask causeTask : Option MTask) :
    Option MTask × List (String × TState) :=
  match keyTask with
  | none => (causeTask, [])
  | some ts =>
    if ts.state = TState.memory then (causeTask, [])
    else
      let s1 : Option MTask × List (String × TState) :=
        match causeTask with
        | some cts =>
          if cts.state = TState.memory then
            (some { cts with who_has := ∅ }, [(cause, TState.released)])
          else (some cts, [])
        | none => (none, [])
      -- `if key:` — true for every non-empty key string
      (s1.1, s1.2 ++ (if key ≠ "" then [(key, TState.released)] else []))

/-- A concrete reported task: waiting, holderless. -/
def cexKeyTask : MTask := ⟨TState.waiting, ∅, true⟩

/-- A concrete cause task: in memory on workers `w1` and `w2`, with a
`run_spec`. -/
def cexCauseTask : MTask := ⟨TState.memory, {"w1", "w2"}, true⟩

end MissingData

namespace RemoveWorker

/-- A task in the removed worker's `processing` map: its key and its
`suspicious` failure count. -/
structure PTask where
  key : String
  suspicious : Nat
deriving DecidableEq, Repr

/-- The `KilledWorker(task_key, worker_address)` exception pickled by
`remove_worker`. -/
inductive Exc where
  | killedWorker (key addr : String)
deriving DecidableEq, Repr

/-- The observable fate of a processing task of the removed worker:
released (the recommendation left in the map) or transitioned to erred
with the given exception (the recommendation is deleted and
`transition(k, 'erred', ...)` is run instead). -/
inductive POutcome where
  | released
  | erred (e : Exc)
deriving DecidableEq, Repr

/-- One iteration of the `for ts in ws.processing` loop of
`Scheduler.remove_worker` (scheduler.py): the released recommendation is
recorded; when not `safe`, `suspicious` is incremented and, if it now
exceeds `allowed_failures`, the released recommendation is replaced by an
erred transition with a `KilledWorker` exception. -/
def process_processing_task (safe : Bool) (allowed_failures : Nat)
    (address : String) (ts : PTask) : PTask × POutcome :=
  if safe then (ts, POutcome.released)
  else
    let ts1 := { ts with suspicious := ts.suspicious + 1 }
    if allowed_failures < ts1.suspicious then
      (ts1, POutcome.erred (Exc.killedWorker ts1.key address))
    else
      (ts1, POutcome.released)

/-- A task in the removed worker's `has_what` set: its key, holders, and
whether it has a `run_spec`. -/
structure HTask where
  key : String
  who_has : Finset String
  run_spec : Bool
deriving DecidableEq

/-- Recommendation from the `has_what` loop: released, forgotten, or no
recommendation when holders remain. -/
inductive HRec where
  | released
  | forgotten
  | none
deriving DecidableEq, Repr

/-- One iteration of the `for ts in ws.has_what` loop of `remove_worker`:
the removed worker is dropped from `who_has`; if no holder remains the
task is recommended released when it has a `run_spec` and forgotten when
it is pure data. -/
def process_has_what_task (address : String) (ts : HTask) : HTask × HRec :=
  let ts1 := { ts with who_has := ts.who_has.erase address }
  if ts1.who_has = ∅ then
    if ts1.run_spec then (ts1, HRec.released) else (ts1, HRec.forgotten)
  else
    (ts1, HRec.none)

/-- The task-recommendation core of `Scheduler.remove_worker`: both loops,
over the worker's `processing` tasks and its `has_what` tasks. -/
def remove_worker (safe : Bool) (allowed_failures : Nat) (address : String)
    (ps : List PTask) (hs : List HTask) :
    List (PTask × POutcome) × List (HTask × HRec) :=
  (ps.map (process_processing_task safe allowed_failures address),
   hs.map (process_has_what_task address))

end RemoveWorker

namespace DecideWorker

/-- The task fields read by the placement functions: the holders of each
dependency (`dts.who_has` for each `dts` in `ts.dependencies`) and
`loose_restrictions`. -/
structure DTask where
  deps_who_has : List (List String)
  loose_restrictions : Bool

/-- The scheduler fields read by `Scheduler.decide_worker`: the worker
table (as its iteration-ordered key list), the `idle` set, the task
counter used for round-robin, per-worker occupancy, and
`partial(self.worker_objective, ts)`. -/
structure Ctx where
  workers : List String
  idle : List String
  n_tasks : Nat
  occupancy : String → ℚ
  objective : String → ℚ × ℚ

/-- Python tuple comparison on the `(start_time, nbytes)` objective. -/
def objLtB (a b : ℚ × ℚ) : Bool :=
  decide (a.1 < b.1) || (decide (a.1 = b.1) && decide (a.2 < b.2))

/-- Python `min(candidates, key=objective)`: first element with minimal
key in iteration order; `none` on an empty collection (where Python would
raise `ValueError`). -/
def minBy (f : String → ℚ × ℚ) : List String → Option String
  | [] => none
  | w :: ws =>
    some (ws.foldl (fun best x => if objLtB (f x) (f best) then x else best) w)

/-- Python `min(seq, key=operator.attrgetter('occupancy'))`, same
convention. -/
def minByOcc (occ : String → ℚ) : List String → Option String
  | [] => none
  | w :: ws =>
    some (ws.foldl (fun best x => if occ x < occ best then x else best) w)

/-- `frequencies([ws for dts in deps for ws in dts.who_has])` used only
through its key set: the dependency holders, first occurrence first. -/
def candidates0 (ts : DTask) : List String := ts.deps_who_has.flatten.dedup

/-- The body of module-level `decide_worker` (scheduler.py) in the
`valid_workers is True` case: dependency holders if any, else all
workers; `None` when there is no candidate at all. -/
def decide_worker_all (ts : DTask) (all_workers : List String)
    (objective : String → ℚ × ℚ) : Option String :=
  let candidates := candidates0 ts
  let candidates1 := if candidates = [] then all_workers else candidates
  if candidates1 = [] then none
  else minBy objective candidates1

/-- Module-level `decide_worker(ts, all_workers, valid_workers, objective)`
(scheduler.py).  `valid_workers = none` models the Python argument `True`.
With a valid set, candidates are the valid dependency holders, falling
back to the whole valid set; when that is empty the function recurses with
`valid_workers=True` if `loose_restrictions` and otherwise returns
`None`. -/
def decide_worker_mod (ts : DTask) (all_workers : List String)
    (valid_workers : Option (List String))
    (objective : String → ℚ × ℚ) : Option String :=
  match valid_workers with
  | none => decide_worker_all ts all_workers objective
  | some v =>
    let candidates := v.filter (fun w => (candidates0 ts).contains w)
    let candidates1 := if candidates = [] then v else candidates
    if candidates1 = [] then
      if ts.loose_restrictions then decide_worker_all ts all_workers objective
      else none
    else minBy objective candidates1

/-- The guard `not valid_workers and not ts.loose_restrictions and
self.workers` of `Scheduler.decide_worker`: the valid set is an (empty)
set — not the Python `True` —, restrictions are strict, and the worker
table is non-empty. -/
def noWorkerCond (ctx : Ctx) (ts : DTask)
    (valid_workers : Option (List String)) : Bool :=
  (match valid_workers with
   | some v => v.isEmpty
   | none => false)
  && !ts.loose_restrictions && !ctx.workers.isEmpty

/-- `Scheduler.decide_worker` (scheduler.py), taking the already-computed
`valid_workers` result.  Returns the chosen worker together with a flag
recording whether the task was added to `unrunnable` with state
`no-worker`.  The `min`/modulo-index fallbacks over an empty worker table
(on which Python would raise) return `none`. -/
def decide_worker_sched (ctx : Ctx) (ts : DTask)
    (valid_workers : Option (List String)) : Option String × Bool :=
  if noWorkerCond ctx ts valid_workers then
    (none, true)
  else if ts.deps_who_has ≠ [] ∨ valid_workers ≠ none then
    (decide_worker_mod ts ctx.workers valid_workers ctx.objective, false)
  else if ctx.idle ≠ [] then
    (if ctx.idle.length < 20 then minByOcc ctx.occupancy ctx.idle
     else ctx.idle.get? (ctx.n_tasks % ctx.idle.length), false)
  else
    (if ctx.workers.length < 20 then minByOcc ctx.occupancy ctx.workers
     else ctx.workers.get? (ctx.n_tasks % ctx.workers.length), false)

/-- A scheduler with no connected workers. -/
def cexCtx : Ctx :=
  { workers := [], idle := [], n_tasks := 0,
    occupancy := fun _ => 0, objective := fun _ => (0, 0) }

/-- A dependency-free task with strict (non-loose) restrictions. -/
def cexDTask : DTask := { deps_who_has := [], loose_restrictions := false }

/-- A scheduler with one connected worker. -/
def oneWorkerCtx : Ctx :=
  { workers := ["w1"], idle := [], n_tasks := 0,
    occupancy := fun _ => 0, objective := fun _ => (0, 0) }

/-- A dependency-free task with loose restrictions. -/
def looseTask : DTask := { deps_who_has := [], loose_restrictions := true }

end DecideWorker

namespace Adaptive

/-- The inputs of one `AdaptiveCore.recommendations` tick
(deploy/adaptive_core.py): `len(self.plan)`, the clamped `target`, the
iteration order of `requested - observed` (a Python set, so the order is
an input here), and the result of `await self.workers_to_close(target)`. -/
structure ATick where
  planSize : Nat
  target : Nat
  notYetArrived : List String
  wtc : List String
deriving DecidableEq, Repr

/-- The `to_close` set computed in the `target < len(plan)` branch:
`toolz.take(len(plan) - target, not_yet_arrived)` when non-empty, then
extended with `workers_to_close(target)` when still above target. -/
def to_close (t : ATick) : Finset String :=
  let tc : Finset String :=
    if t.notYetArrived ≠ [] then
      (t.notYetArrived.take (t.planSize - t.target)).toFinset
    else ∅
  if (t.target : Int) < (t.planSize : Int) - (tc.card : Int) then
    tc ∪ t.wtc.toFinset
  else tc

/-- The recommendation value: `{"status": "same"}`, `{"status": "up",
"n": target}` or `{"status": "down", "workers": firmly_close}`. -/
inductive ARec where
  | same
  | up (n : Nat)
  | down (ws : Finset String)
deriving DecidableEq

/-- `AdaptiveCore.recommendations` (deploy/adaptive_core.py).
`close_counts` is `defaultdict(int)`, modelled as a total function with
default 0; deleting a key models as resetting it to 0.  On `same`/`up`
the counters are cleared wholesale; on the down path every candidate's
counter is incremented, candidates reaching `wait_count` are firmly
closed, and counters of firmly-closed or non-candidate workers are
deleted. -/
def recommendations (wait_count : Nat) (t : ATick) (cc : String → Nat) :
    ARec × (String → Nat) :=
  if t.target = t.planSize then (ARec.same, fun _ => 0)
  else if t.planSize < t.target then (ARec.up t.target, fun _ => 0)
  else
    let tc := to_close t
    let cc1 : String → Nat := fun w => if w ∈ tc then cc w + 1 else cc w
    let firmly := tc.filter (fun w => wait_count ≤ cc1 w)
    let cc2 : String → Nat := fun w => if w ∈ firmly ∨ w ∉ tc then 0 else cc1 w
    (if firmly ≠ ∅ then ARec.down firmly else ARec.same, cc2)

/-- Whether tick `t` takes the scale-down path with `w` picked as a close
candidate. -/
def isCand (w : String) (t : ATick) : Bool :=
  decide (t.target < t.planSize) && decide (w ∈ to_close t)

/-- The close-counter state transformer of one tick. -/
def step (wait_count : Nat) (cc : String → Nat) (t : ATick) : String → Nat :=
  (recommendations wait_count t cc).2

/-- Close counters after a whole trace of ticks (oldest first), starting
from the all-zero `defaultdict`. -/
def runCounts (wait_count : Nat) (trace : List ATick) : String → Nat :=
  trace.foldl (step wait_count) (fun _ => 0)

/-- The number of consecutive ticks at the end of `trace` on which `w`
was a close candidate. -/
def consecutiveCand (w : String) (trace : List ATick) : Nat :=
  (trace.reverse.takeWhile (isCand w)).length

/-- A concrete scale-down tick: plan of 4, target 2, nothing pending with
the resource manager, two observed workers proposed for closing. -/
def tickW : ATick :=
  { planSize := 4, target := 2, notYetArrived := [], wtc := ["a", "b"] }

end Adaptive

namespace Replicate

/-- A task tracked by `replicate` (scheduler.py): its key and its
`who_has` holder set. -/
structure RTask where
  key : String
  who_has : Finset String
deriving DecidableEq

/-- The preamble `n = min(n, len(workers))` of `Scheduler.replicate`. -/
def clampN (n : Nat) (W : List String) : Nat := min n W.length

/-- `random.sample(workers - ts.who_has, count)` modelled
deterministically: the first `count` non-holders in the fixed candidate
worker enumeration `W`.  (`random.sample` returns `count` distinct
elements of `workers - who_has`; the choice itself is irrelevant to the
properties proved below.) -/
def sample (W : List String) (h : Finset String) (count : Nat) :
    List String :=
  (W.filter (fun w => decide (w ∉ h))).take count

/-- `n_missing = n - len(ts.who_has & workers)` (a Python int, so `ℤ`). -/
def n_missing (n : Nat) (W : List String) (t : RTask) : Int :=
  (n : Int) - ((t.who_has ∩ W.toFinset).card : Int)

/-- One iteration of the `for ts in list(tasks)` body of the
`while tasks:` loop, under the claim's assumption that every gather RPC
succeeds.  `none` models `tasks.remove(ts)` (replicated enough);
otherwise the task gains the `count = min(n_missing,
branching_factor * len(ts.who_has))` sampled non-holders — the source
applies exactly these through `add_keys` once the yielded gathers return
`OK`. -/
def step (n bf : Nat) (W : List String) (t : RTask) : Option RTask :=
  if n_missing n W t ≤ 0 then none
  else
    let count := min (n_missing n W t).toNat (bf * t.who_has.card)
    some { t with
           who_has := t.who_has ∪ (sample W t.who_has count).toFinset }

/-- One `while tasks:` round: the still-pending tasks with their new
holders, and the tasks removed from `tasks` this round. -/
def round (n bf : Nat) (W : List String) (pending : List RTask) :
    List RTask × List RTask :=
  (pending.filterMap (step n bf W),
   pending.filter (fun t => decide (n_missing n W t ≤ 0)))

/-- The `while tasks:` loop, with explicit fuel standing in for the
termination argument (the theorems instantiate the fuel with
`measure`). -/
def loop (n bf : Nat) (W : List String) :
    Nat → List RTask → List RTask → List RTask × List RTask
  | 0, pending, done => (pending, done)
  | fuel + 1, pending, done =>
    if pending = [] then ([], done)
    else
      loop n bf W fuel (round n bf W pending).1
        (done ++ (round n bf W pending).2)

/-- Remaining replication work: one unit per missing holder plus one per
pending task. -/
def measure (n : Nat) (W : List String) (pending : List RTask) : Nat :=
  (pending.map
    (fun t => (n - (t.who_has ∩ W.toFinset).card) + 1)).sum

end Replicate

/-- C4: for a task in state `processing`, `stimulus_task_erred` decrements
`retries` by exactly one and recommends `waiting` when `retries > 0`, and
otherwise recommends `erred` carrying the reported exception and
traceback. -/
theorem TaskErred.stimulus_task_erred_spec (ts : TaskErred.ETask)
    (exception traceback : String)
    (hproc : ts.state = TaskErred.TState.processing) :
    (0 < ts.retries →
      TaskErred.stimulus_task_erred ts exception traceback =
        ({ ts with retries := ts.retries - 1 }, TaskErred.ERec.waiting)) ∧
    (ts.retries ≤ 0 →
      TaskErred.stimulus_task_erred ts exception traceback =
        (ts, TaskErred.ERec.erred exception traceback)) := by
  constructor
  · intro h
    simp [TaskErred.stimulus_task_erred, hproc, h]
  · intro h
    simp [TaskErred.stimulus_task_erred, hproc, not_lt.mpr h]

/-- Witness for C4: a concrete processing task with two retries left is
re-recommended `waiting` with one retry remaining. -/
theorem TaskErred.stimulus_task_erred_spec_witness :
    TaskErred.stimulus_task_erred ⟨TaskErred.TState.processing, 2⟩ "boom" "tb" =
      (⟨TaskErred.TState.processing, 1⟩, TaskErred.ERec.waiting) := by
  have h := (TaskErred.stimulus_task_erred_spec ⟨TaskErred.TState.processing, 2⟩
    "boom" "tb" rfl).1 (by norm_num)
  simpa using h

/-- C9: `BatchedSend.send` is a total pure function of the batched-send
state — the source body has no await and no raise — and in every state
(comm absent, open or closed, deadline pending or not) it appends the
messages to the buffer in order and adds their number to
`message_count`. -/
theorem Batched.send_spec (st : Batched.BState) (msgs : List String) :
    (Batched.send st msgs).buffer = st.buffer ++ msgs ∧
    (Batched.send st msgs).message_count = st.message_count + msgs.length := by
  unfold Batched.send
  dsimp only
  split <;> simp

/-- C6: with `total_ncores > 0`, `check_idle_saturated` puts the worker in
`idle` iff `p < nc` or `occ/nc < avg/2`, and puts it in `saturated` iff it
is not idle, `p > nc`, `pending > 0.4` and `pending > 1.9*avg`; in every
other case the worker ends up in neither set. -/
theorem IdleSaturated.check_idle_saturated_spec (st : IdleSaturated.SState)
    (addr : String) (ws : IdleSaturated.WState)
    (h : 0 < st.total_ncores) :
    (addr ∈ (IdleSaturated.check_idle_saturated st addr ws).idle ↔
      ((ws.nprocessing : ℚ) < (ws.ncores : ℚ) ∨
       ws.occupancy / (ws.ncores : ℚ) <
         (st.total_occupancy / (st.total_ncores : ℚ)) / 2)) ∧
    (addr ∈ (IdleSaturated.check_idle_saturated st addr ws).saturated ↔
      (¬((ws.nprocessing : ℚ) < (ws.ncores : ℚ) ∨
         ws.occupancy / (ws.ncores : ℚ) <
           (st.total_occupancy / (st.total_ncores : ℚ)) / 2) ∧
       ((ws.ncores : ℚ) < (ws.nprocessing : ℚ) ∧
        2/5 < ws.occupancy * ((ws.nprocessing : ℚ) - (ws.ncores : ℚ)) /
          (ws.nprocessing : ℚ) / (ws.ncores : ℚ) ∧
        19/10 * (st.total_occupancy / (st.total_ncores : ℚ)) <
          ws.occupancy * ((ws.nprocessing : ℚ) - (ws.ncores : ℚ)) /
            (ws.nprocessing : ℚ) / (ws.ncores : ℚ)))) := by
  have hne : ¬ st.total_ncores = 0 := Nat.pos_iff_ne_zero.mp h
  unfold IdleSaturated.check_idle_saturated
  rw [if_neg hne]
  by_cases hidle : ((ws.nprocessing : ℚ) < (ws.ncores : ℚ) ∨
      ws.occupancy / (ws.ncores : ℚ) <
        (st.total_occupancy / (st.total_ncores : ℚ)) / 2)
  · rw [if_pos hidle]
    constructor
    · simpa using hidle
    · constructor
      · intro hmem
        exact absurd (Finset.mem_erase.mp hmem).1 (by simp)
      · intro hcon
        exact (hcon.1 hidle).elim
  · rw [if_neg hidle]
    by_cases hsat : ((ws.ncores : ℚ) < (ws.nprocessing : ℚ) ∧
        2/5 < ws.occupancy * ((ws.nprocessing : ℚ) - (ws.ncores : ℚ)) /
          (ws.nprocessing : ℚ) / (ws.ncores : ℚ) ∧
        19/10 * (st.total_occupancy / (st.total_ncores : ℚ)) <
          ws.occupancy * ((ws.nprocessing : ℚ) - (ws.ncores : ℚ)) /
            (ws.nprocessing : ℚ) / (ws.ncores : ℚ))
    · rw [if_pos hsat]
      constructor
      · simpa using hidle
      · constructor
        · intro _
          exact ⟨hidle, hsat⟩
        · intro _
          simp
    · rw [if_neg hsat]
      constructor
      · simpa using hidle
      · constructor
        · intro hmem
          exact absurd (Finset.mem_erase.mp hmem).1 (by simp)
        · intro hcon
          exact (hsat hcon.2).elim

/-- Witness for C6: a concrete one-core worker with two queued tasks and
high occupancy on a busy cluster is classified saturated, not idle. -/
theorem IdleSaturated.check_idle_saturated_spec_witness :
    ("w1" ∉ (IdleSaturated.check_idle_saturated
        ⟨1, 1, {}, {}⟩ "w1" ⟨10, 1, 2⟩).idle) ∧
    ("w1" ∈ (IdleSaturated.check_idle_saturated
        ⟨1, 1, {}, {}⟩ "w1" ⟨10, 1, 2⟩).saturated) := by
  have h := IdleSaturated.check_idle_saturated_spec
    ⟨1, 1, {}, {}⟩ "w1" ⟨10, 1, 2⟩ (by norm_num)
  constructor
  · rw [h.1]; norm_num
  · rw [h.2]; norm_num

/-- C10: when `total_ncores` is zero, `check_idle_saturated` returns
immediately: the scheduler state — in particular the `idle` and
`saturated` sets — is unchanged, and no average or per-core quotient is
formed. -/
theorem IdleSaturated.check_idle_saturated_zero_cores (st : IdleSaturated.SState)
    (addr : String) (ws : IdleSaturated.WState)
    (h : st.total_ncores = 0) :
    IdleSaturated.check_idle_saturated st addr ws = st := by
  unfold IdleSaturated.check_idle_saturated
  simp [h]

/-- Witness for C10: concrete zero-core state is returned unchanged. -/
theorem IdleSaturated.check_idle_saturated_zero_cores_witness :
    IdleSaturated.check_idle_saturated ⟨0, 5, {"a"}, {"b"}⟩ "w1" ⟨10, 1, 2⟩ =
      ⟨0, 5, {"a"}, {"b"}⟩ :=
  IdleSaturated.check_idle_saturated_zero_cores ⟨0, 5, {"a"}, {"b"}⟩ "w1" ⟨10, 1, 2⟩ rfl

/-- Counterexample for C1: with worker restriction `{w1}` and host
restriction `{h2}` (host `h2` holding only `w2`), `valid_workers` returns
the union `{w1, w2}` of the two restriction sets, not the claimed
intersection (which is empty). -/
theorem ValidWorkers.valid_workers_claim_counterexample :
    ValidWorkers.valid_workers ValidWorkers.cexSt ValidWorkers.cexTask =
      some {"w1", "w2"} ∧
    ValidWorkers.valid_workers_claimed ValidWorkers.cexSt ValidWorkers.cexTask
      = ∅ ∧
    ValidWorkers.valid_workers ValidWorkers.cexSt ValidWorkers.cexTask ≠
      some (ValidWorkers.valid_workers_claimed ValidWorkers.cexSt
        ValidWorkers.cexTask) := by
  refine ⟨by decide, by decide, by decide⟩

/-- C1 (amended): for a task with both `worker_restrictions` and
`host_restrictions` set, `valid_workers` returns the worker-restriction
set (filtered to known workers) UNIONED with the set of workers on any
restricted host, and that union intersected with each resource
restriction's worker set when resource restrictions are present. -/
theorem ValidWorkers.valid_workers_spec (st : ValidWorkers.SchedState)
    (ts : ValidWorkers.VTask)
    (hw : ts.worker_restrictions ≠ ∅) (hh : ts.host_restrictions ≠ ∅) :
    ValidWorkers.valid_workers st ts =
      some (if ts.resource_restrictions = [] then
          ts.worker_restrictions.filter (fun w => w ∈ st.worker_info) ∪
            ValidWorkers.hostUnion st ts
        else
          (ts.worker_restrictions.filter (fun w => w ∈ st.worker_info) ∪
            ValidWorkers.hostUnion st ts) ∩
            ValidWorkers.resourceInter st ts.resource_restrictions) := by
  by_cases hr : ts.resource_restrictions = [] <;>
    simp [ValidWorkers.valid_workers, hw, hh, hr]

/-- Witness for C1 (amended) at the concrete two-worker scheduler. -/
theorem ValidWorkers.valid_workers_spec_witness :
    ValidWorkers.valid_workers ValidWorkers.cexSt ValidWorkers.cexTask =
      some (ValidWorkers.cexTask.worker_restrictions.filter
          (fun w => w ∈ ValidWorkers.cexSt.worker_info) ∪
        ValidWorkers.hostUnion ValidWorkers.cexSt ValidWorkers.cexTask) := by
  have h := ValidWorkers.valid_workers_spec ValidWorkers.cexSt
    ValidWorkers.cexTask (by decide) (by decide)
  simpa using h

/-- Counterexample for C2: the cause task is in memory on `{w1, w2}` and
worker `w1` reports data missing.  The handler clears `who_has` entirely —
leaving `∅`, not the claimed `{w2}` — and recommends the cause released
even though a holder other than the errant worker remains. -/
theorem MissingData.stimulus_missing_data_claim_counterexample :
    (MissingData.stimulus_missing_data "k" "c" "w1"
        (some MissingData.cexKeyTask) (some MissingData.cexCauseTask)).1 =
      some ⟨MissingData.TState.memory, ∅, true⟩ ∧
    (MissingData.stimulus_missing_data "k" "c" "w1"
        (some MissingData.cexKeyTask) (some MissingData.cexCauseTask)).1 ≠
      some ⟨MissingData.TState.memory, ({"w2"} : Finset String), true⟩ ∧
    ("c", MissingData.TState.released) ∈
      (MissingData.stimulus_missing_data "k" "c" "w1"
        (some MissingData.cexKeyTask) (some MissingData.cexCauseTask)).2 := by
  refine ⟨by decide, by decide, by decide⟩

/-- C2 (amended): when the reported key's task exists and is not in memory
and the cause task is in memory, the handler removes ALL workers (not only
the errant one) from `cause.who_has` and recommends the cause released —
regardless of `run_spec`; `forgotten` is never recommended. -/
theorem MissingData.stimulus_missing_data_spec (key cause worker : String)
    (kt ct : MissingData.MTask) (hkey : key ≠ "")
    (hk : kt.state ≠ MissingData.TState.memory)
    (hc : ct.state = MissingData.TState.memory) :
    MissingData.stimulus_missing_data key cause worker (some kt) (some ct) =
      (some { ct with who_has := ∅ },
       [(cause, MissingData.TState.released),
        (key, MissingData.TState.released)]) := by
  simp [MissingData.stimulus_missing_data, hk, hc, hkey]

/-- Witness for C2 (amended): a pure-data cause (no `run_spec`) is still
recommended released, never forgotten. -/
theorem MissingData.stimulus_missing_data_spec_witness :
    MissingData.stimulus_missing_data "k" "c" "w1"
        (some ⟨MissingData.TState.waiting, ∅, false⟩)
        (some ⟨MissingData.TState.memory, {"w1", "w2"}, false⟩) =
      (some ⟨MissingData.TState.memory, ∅, false⟩,
       [("c", MissingData.TState.released),
        ("k", MissingData.TState.released)]) := by
  have h := MissingData.stimulus_missing_data_spec "k" "c" "w1"
    ⟨MissingData.TState.waiting, ∅, false⟩
    ⟨MissingData.TState.memory, {"w1", "w2"}, false⟩
    (by decide) (by decide) (by decide)
  simpa using h

/-- C3: in `remove_worker(address, safe=False)`, every task in the
worker's `processing` map has `suspicious` incremented and is recommended
released, except that a task whose incremented count exceeds
`allowed_failures` is instead transitioned to erred with a `KilledWorker`
exception; every task in the worker's `has_what` loses that worker from
`who_has`, and a task left holderless is recommended forgotten when it has
no `run_spec` and released when it has one. -/
theorem RemoveWorker.remove_worker_spec (allowed_failures : Nat)
    (address : String)
    (ps : List RemoveWorker.PTask) (hs : List RemoveWorker.HTask) :
    (RemoveWorker.remove_worker false allowed_failures address ps hs).1 =
      ps.map (RemoveWorker.process_processing_task false allowed_failures
        address) ∧
    (RemoveWorker.remove_worker false allowed_failures address ps hs).2 =
      hs.map (RemoveWorker.process_has_what_task address) ∧
    (∀ t ∈ ps,
      (RemoveWorker.process_processing_task false allowed_failures address
          t).1.suspicious = t.suspicious + 1 ∧
      (allowed_failures < t.suspicious + 1 →
        (RemoveWorker.process_processing_task false allowed_failures address
            t).2 =
          RemoveWorker.POutcome.erred
            (RemoveWorker.Exc.killedWorker t.key address)) ∧
      (t.suspicious + 1 ≤ allowed_failures →
        (RemoveWorker.process_processing_task false allowed_failures address
            t).2 = RemoveWorker.POutcome.released)) ∧
    (∀ t ∈ hs,
      (RemoveWorker.process_has_what_task address t).1.who_has =
        t.who_has.erase address ∧
      (t.who_has.erase address = ∅ →
        (RemoveWorker.process_has_what_task address t).2 =
          (if t.run_spec then RemoveWorker.HRec.released
           else RemoveWorker.HRec.forgotten)) ∧
      (t.who_has.erase address ≠ ∅ →
        (RemoveWorker.process_has_what_task address t).2 =
          RemoveWorker.HRec.none)) := by
  refine ⟨rfl, rfl, ?_, ?_⟩
  · intro t _
    refine ⟨?_, ?_, ?_⟩
    · simp only [RemoveWorker.process_processing_task, Bool.false_eq_true,
        if_false]
      split <;> rfl
    · intro h
      simp [RemoveWorker.process_processing_task, h]
    · intro h
      simp [RemoveWorker.process_processing_task, Nat.not_lt.mpr h]
  · intro t _
    refine ⟨?_, ?_, ?_⟩
    · simp only [RemoveWorker.process_has_what_task]
      split
      · split <;> rfl
      · rfl
    · intro h
      simp only [RemoveWorker.process_has_what_task, h, if_true]
      split <;> rfl
    · intro h
      simp [RemoveWorker.process_has_what_task, h]

/-- Witness for C3: with `allowed_failures = 3`, a task already suspicious
3 times is erred with `KilledWorker` on its fourth loss, and a pure-data
task held only by the removed worker is recommended forgotten. -/
theorem RemoveWorker.remove_worker_spec_witness :
    (RemoveWorker.process_processing_task false 3 "w" ⟨"t2", 3⟩).2 =
      RemoveWorker.POutcome.erred (RemoveWorker.Exc.killedWorker "t2" "w") ∧
    (RemoveWorker.process_has_what_task "w" ⟨"d1", {"w"}, false⟩).2 =
      RemoveWorker.HRec.forgotten := by
  have h := RemoveWorker.remove_worker_spec 3 "w" [⟨"t1", 0⟩, ⟨"t2", 3⟩]
    [⟨"d1", {"w"}, false⟩, ⟨"d2", {"w", "v"}, true⟩]
  constructor
  · exact (h.2.2.1 ⟨"t2", 3⟩ (by simp)).2.1 (by norm_num)
  · have h2 := (h.2.2.2 ⟨"d1", {"w"}, false⟩ (by simp)).2.1 (by decide)
    simpa using h2

/-- Counterexample for C5: with no connected workers, a task whose
valid-worker set is empty and whose `loose_restrictions` is false gets
`None` from `decide_worker` WITHOUT being placed in `unrunnable` with
state `no-worker` — the claimed "exactly when" equivalence fails. -/
theorem DecideWorker.decide_worker_claim_counterexample :
    (DecideWorker.decide_worker_sched DecideWorker.cexCtx
        DecideWorker.cexDTask (some [])).1 = none ∧
    (DecideWorker.decide_worker_sched DecideWorker.cexCtx
        DecideWorker.cexDTask (some [])).2 = false ∧
    ¬ (((DecideWorker.decide_worker_sched DecideWorker.cexCtx
           DecideWorker.cexDTask (some [])).1 = none ∧
        (DecideWorker.decide_worker_sched DecideWorker.cexCtx
           DecideWorker.cexDTask (some [])).2 = true) ↔
       ((some ([] : List String)) = some ([] : List String) ∧
        DecideWorker.cexDTask.loose_restrictions = false)) := by
  refine ⟨by decide, by decide, by decide⟩

/-- The no-worker guard of `decide_worker` holds exactly for an empty
valid set, strict restrictions, and a non-empty worker table. -/
theorem DecideWorker.noWorkerCond_iff (ctx : DecideWorker.Ctx)
    (ts : DecideWorker.DTask) (vw : Option (List String)) :
    DecideWorker.noWorkerCond ctx ts vw = true ↔
      (vw = some [] ∧ ts.loose_restrictions = false ∧ ctx.workers ≠ []) := by
  cases vw with
  | none => simp [DecideWorker.noWorkerCond]
  | some v => simp [DecideWorker.noWorkerCond, and_assoc]

/-- C5 (amended): `decide_worker` returns null AND places the task in the
unrunnable set with state no-worker exactly when the task's valid-worker
set is empty, `loose_restrictions` is false, and at least one worker is
connected; when the valid set is empty but `loose_restrictions` is true,
the decision falls back to deciding among all workers (the
`valid_workers=True` path). -/
theorem DecideWorker.decide_worker_spec (ctx : DecideWorker.Ctx)
    (ts : DecideWorker.DTask) (valid_workers : Option (List String)) :
    (((DecideWorker.decide_worker_sched ctx ts valid_workers).1 = none ∧
      (DecideWorker.decide_worker_sched ctx ts valid_workers).2 = true) ↔
      (valid_workers = some [] ∧ ts.loose_restrictions = false ∧
       ctx.workers ≠ [])) ∧
    (valid_workers = some [] → ts.loose_restrictions = true →
      DecideWorker.decide_worker_sched ctx ts valid_workers =
        (DecideWorker.decide_worker_all ts ctx.workers ctx.objective,
         false)) := by
  constructor
  · constructor
    · rintro ⟨h1, h2⟩
      by_cases hc : DecideWorker.noWorkerCond ctx ts valid_workers = true
      · exact (DecideWorker.noWorkerCond_iff ctx ts valid_workers).mp hc
      · exfalso
        unfold DecideWorker.decide_worker_sched at h2
        rw [if_neg hc] at h2
        split at h2
        · simp at h2
        · split at h2 <;> simp at h2
    · intro hr
      have hc := (DecideWorker.noWorkerCond_iff ctx ts valid_workers).mpr hr
      unfold DecideWorker.decide_worker_sched
      rw [if_pos hc]
      exact ⟨rfl, rfl⟩
  · intro hv hl
    subst hv
    have hc : DecideWorker.noWorkerCond ctx ts (some []) = false := by
      simp [DecideWorker.noWorkerCond, hl]
    unfold DecideWorker.decide_worker_sched
    rw [if_neg (by simp [hc])]
    rw [if_pos (show ts.deps_who_has ≠ [] ∨
      (some ([] : List String)) ≠ none from Or.inr (by simp))]
    simp [DecideWorker.decide_worker_mod, hl]

/-- Witness for C5 (amended): with one connected worker a strictly
restricted task with empty valid set is marked no-worker, and a loosely
restricted task with empty valid set is decided among all workers. -/
theorem DecideWorker.decide_worker_spec_witness :
    (DecideWorker.decide_worker_sched DecideWorker.oneWorkerCtx
        DecideWorker.cexDTask (some [])).2 = true ∧
    DecideWorker.decide_worker_sched DecideWorker.oneWorkerCtx
        DecideWorker.looseTask (some []) =
      (DecideWorker.decide_worker_all DecideWorker.looseTask
        DecideWorker.oneWorkerCtx.workers DecideWorker.oneWorkerCtx.objective,
       false) := by
  constructor
  · exact ((DecideWorker.decide_worker_spec DecideWorker.oneWorkerCtx
      DecideWorker.cexDTask (some [])).1.mpr ⟨rfl, rfl, by decide⟩).2
  · exact (DecideWorker.decide_worker_spec DecideWorker.oneWorkerCtx
      DecideWorker.looseTask (some [])).2 rfl rfl

/-- One tick never raises a worker's close counter above "previous value
plus one when a candidate, zero otherwise". -/
theorem Adaptive.step_le (wc : Nat) (cc : String → Nat) (t : Adaptive.ATick)
    (w : String) :
    Adaptive.step wc cc t w ≤
      (if Adaptive.isCand w t then cc w + 1 else 0) := by
  unfold Adaptive.step Adaptive.recommendations
  by_cases h1 : t.target = t.planSize
  · have h3 : ¬ t.target < t.planSize := by omega
    simp [Adaptive.isCand, h1, h3]
  · by_cases h2 : t.planSize < t.target
    · have h3 : ¬ t.target < t.planSize := by omega
      simp [Adaptive.isCand, h1, h2, h3]
    · have h3 : t.target < t.planSize := by omega
      simp only [if_neg h1, if_neg h2]
      dsimp only
      by_cases hw : w ∈ Adaptive.to_close t
      · rw [if_pos (show Adaptive.isCand w t = true by
          simp [Adaptive.isCand, h3, hw])]
        split
        · omega
        · simp [hw]
      · rw [if_neg (show ¬ Adaptive.isCand w t = true by
          simp [Adaptive.isCand, hw])]
        rw [if_pos (Or.inr hw)]

/-- A tick on which `w` is not a scale-down candidate resets `w`'s close
counter to zero. -/
theorem Adaptive.step_clear (wc : Nat) (cc : String → Nat)
    (t : Adaptive.ATick) (w : String)
    (h : Adaptive.isCand w t = false) : Adaptive.step wc cc t w = 0 := by
  unfold Adaptive.step Adaptive.recommendations
  by_cases h1 : t.target = t.planSize
  · simp [h1]
  · by_cases h2 : t.planSize < t.target
    · simp [h1, h2]
    · have h3 : t.target < t.planSize := by omega
      have hw : w ∉ Adaptive.to_close t := by
        intro hmem
        simp [Adaptive.isCand, h3, hmem] at h
      simp only [if_neg h1, if_neg h2]
      dsimp only
      rw [if_pos (Or.inr hw)]

/-- Appending a tick extends or resets the trailing candidate run. -/
theorem Adaptive.consecutiveCand_append (w : String)
    (trace : List Adaptive.ATick) (t : Adaptive.ATick) :
    Adaptive.consecutiveCand w (trace ++ [t]) =
      (if Adaptive.isCand w t then Adaptive.consecutiveCand w trace + 1
       else 0) := by
  unfold Adaptive.consecutiveCand
  rw [List.reverse_append]
  simp only [List.reverse_cons, List.reverse_nil, List.nil_append,
    List.singleton_append, List.takeWhile_cons]
  split <;> simp

/-- Unfolding `runCounts` over an appended tick. -/
theorem Adaptive.runCounts_append (wc : Nat) (trace : List Adaptive.ATick)
    (t : Adaptive.ATick) :
    Adaptive.runCounts wc (trace ++ [t]) =
      Adaptive.step wc (Adaptive.runCounts wc trace) t := by
  unfold Adaptive.runCounts
  rw [List.foldl_append]
  rfl

/-- Invariant: a close counter never exceeds the length of the trailing
run of ticks on which the worker was a candidate. -/
theorem Adaptive.runCounts_le (wc : Nat) (w : String)
    (trace : List Adaptive.ATick) :
    Adaptive.runCounts wc trace w ≤ Adaptive.consecutiveCand w trace := by
  induction trace using List.reverseRecOn with
  | nil => simp [Adaptive.runCounts, Adaptive.consecutiveCand]
  | append_singleton l t ih =>
    rw [Adaptive.runCounts_append, Adaptive.consecutiveCand_append]
    have h := Adaptive.step_le wc (Adaptive.runCounts wc l) t w
    by_cases hc : Adaptive.isCand w t = true
    · rw [if_pos hc] at h ⊢
      omega
    · rw [if_neg hc] at h ⊢
      omega

/-- C7: starting from fresh counters, a worker can appear in a "down"
recommendation only after being a close candidate on at least
`wait_count` consecutive ticks (the concluding tick included); and any
tick on which a worker is not a scale-down candidate — in particular
every tick recommending "same" or "up" — resets that worker's close
counter to zero. -/
theorem Adaptive.recommendations_spec (wait_count : Nat)
    (trace : List Adaptive.ATick) (t : Adaptive.ATick) (w : String)
    (ws : Finset String)
    (hdown : (Adaptive.recommendations wait_count t
        (Adaptive.runCounts wait_count trace)).1 = Adaptive.ARec.down ws)
    (hw : w ∈ ws) :
    wait_count ≤ Adaptive.consecutiveCand w (trace ++ [t]) ∧
    (∀ (cc : String → Nat) (t2 : Adaptive.ATick) (w2 : String),
      Adaptive.isCand w2 t2 = false →
      (Adaptive.recommendations wait_count t2 cc).2 w2 = 0) := by
  refine ⟨?_, fun cc t2 w2 h => Adaptive.step_clear wait_count cc t2 w2 h⟩
  unfold Adaptive.recommendations at hdown
  by_cases h1 : t.target = t.planSize
  · simp [h1] at hdown
  · by_cases h2 : t.planSize < t.target
    · simp [h1, h2] at hdown
    · have h3 : t.target < t.planSize := by omega
      simp only [if_neg h1, if_neg h2] at hdown
      dsimp only at hdown
      by_cases hf : ((Adaptive.to_close t).filter (fun x =>
          wait_count ≤ (if x ∈ Adaptive.to_close t then
            Adaptive.runCounts wait_count trace x + 1
          else Adaptive.runCounts wait_count trace x))) ≠ ∅
      · rw [if_pos hf] at hdown
        have hws : (Adaptive.to_close t).filter (fun x =>
            wait_count ≤ (if x ∈ Adaptive.to_close t then
              Adaptive.runCounts wait_count trace x + 1
            else Adaptive.runCounts wait_count trace x)) = ws := by
          injection hdown
        have hmem := hws ▸ hw
        obtain ⟨hwtc, hcount⟩ := Finset.mem_filter.mp hmem
        rw [if_pos hwtc] at hcount
        have hle := Adaptive.runCounts_le wait_count w trace
        rw [Adaptive.consecutiveCand_append,
          if_pos (show Adaptive.isCand w t = true by
            simp [Adaptive.isCand, h3, hwtc])]
        omega
      · rw [if_neg hf] at hdown
        exact absurd hdown (by simp)

/-- Witness for C7: with `wait_count = 3` and three identical scale-down
ticks proposing workers `a` and `b`, the third tick's recommendation is
"down" and worker `a` has indeed been a candidate on 3 consecutive
ticks. -/
theorem Adaptive.recommendations_spec_witness :
    3 ≤ Adaptive.consecutiveCand "a"
      ([Adaptive.tickW, Adaptive.tickW] ++ [Adaptive.tickW]) := by
  have h := Adaptive.recommendations_spec 3 [Adaptive.tickW, Adaptive.tickW]
    Adaptive.tickW "a" {"a", "b"} (by decide) (by decide)
  exact h.1

/-- Every sampled worker is a candidate worker and not already a holder. -/
theorem Replicate.sample_subset (W : List String) (h : Finset String)
    (c : Nat) : ∀ w ∈ Replicate.sample W h c, w ∈ W.toFinset ∧ w ∉ h := by
  intro w hw
  unfold Replicate.sample at hw
  have h1 := List.mem_of_mem_take hw
  obtain ⟨hmem, hdec⟩ := List.mem_filter.mp h1
  exact ⟨List.mem_toFinset.mpr hmem, of_decide_eq_true hdec⟩

/-- The sample list has no duplicates when the worker enumeration has
none. -/
theorem Replicate.sample_nodup (W : List String) (hnodup : W.Nodup)
    (h : Finset String) (c : Nat) : (Replicate.sample W h c).Nodup :=
  (List.take_sublist c _).nodup (hnodup.filter _)

/-- With a duplicate-free enumeration, the non-holder pool has exactly
`|W| - |W ∩ h|` elements. -/
theorem Replicate.filter_length (W : List String) (hnodup : W.Nodup)
    (h : Finset String) :
    (W.filter (fun w => decide (w ∉ h))).length = (W.toFinset \ h).card := by
  have h1 : (W.filter (fun w => decide (w ∉ h))).toFinset =
      W.toFinset.filter (fun w => decide (w ∉ h)) :=
    List.toFinset_filter W _
  have h2 : (W.filter (fun w => decide (w ∉ h))).toFinset.card =
      (W.filter (fun w => decide (w ∉ h))).length :=
    List.toFinset_card_of_nodup (hnodup.filter _)
  rw [← h2, h1, Finset.sdiff_eq_filter]
  congr 1
  apply Finset.filter_congr
  intro x _
  simp

/-- When `c` workers are available outside `h`, the sample has exactly
`c` distinct elements. -/
theorem Replicate.sample_card (W : List String) (hnodup : W.Nodup)
    (h : Finset String) (c : Nat) (hc : c ≤ (W.toFinset \ h).card) :
    (Replicate.sample W h c).toFinset.card = c := by
  have h1 : (Replicate.sample W h c).toFinset.card =
      (Replicate.sample W h c).length :=
    List.toFinset_card_of_nodup (Replicate.sample_nodup W hnodup h c)
  rw [h1]
  unfold Replicate.sample
  rw [List.length_take, Replicate.filter_length W hnodup h]
  omega

/-- A surviving step never loses holders. -/
theorem Replicate.step_who_has_mono (n bf : Nat) (W : List String)
    (t t2 : Replicate.RTask)
    (hstep : Replicate.step n bf W t = some t2) :
    t.who_has ⊆ t2.who_has := by
  unfold Replicate.step at hstep
  split at hstep
  · exact absurd hstep (by simp)
  · injection hstep with h
    subst h
    exact Finset.subset_union_left

/-- The effect of a surviving step on an under-replicated task with at
least one holder: it gains exactly
`count = min(n_missing, bf * |who_has|)` distinct new candidate-worker
holders, and `count ≥ 1`. -/
theorem Replicate.step_some (n bf : Nat) (W : List String)
    (t t2 : Replicate.RTask)
    (hnodup : W.Nodup) (hn : n ≤ W.length) (hh : t.who_has ≠ ∅)
    (hbf : 1 ≤ bf)
    (hstep : Replicate.step n bf W t = some t2) :
    1 ≤ min (Replicate.n_missing n W t).toNat (bf * t.who_has.card) ∧
    (t.who_has ∩ W.toFinset).card < n ∧
    (t2.who_has ∩ W.toFinset).card =
      (t.who_has ∩ W.toFinset).card +
        min (Replicate.n_missing n W t).toNat (bf * t.who_has.card) := by
  unfold Replicate.step at hstep
  by_cases hm : Replicate.n_missing n W t ≤ 0
  · rw [if_pos hm] at hstep
    exact absurd hstep (by simp)
  · rw [if_neg hm] at hstep
    injection hstep with heq
    have ha : (t.who_has ∩ W.toFinset).card < n := by
      unfold Replicate.n_missing at hm
      omega
    have hcard1 : 1 ≤ t.who_has.card :=
      Finset.card_pos.mpr (Finset.nonempty_iff_ne_empty.mpr hh)
    have hmin1 : 1 ≤ min (Replicate.n_missing n W t).toNat
        (bf * t.who_has.card) := by
      have h1 : 1 ≤ (Replicate.n_missing n W t).toNat := by
        unfold Replicate.n_missing at hm ⊢
        omega
      have h2 : 1 ≤ bf * t.who_has.card := Nat.mul_le_mul hbf hcard1
      omega
    refine ⟨hmin1, ha, ?_⟩
    subst heq
    -- the sampled set
    have hWcard : W.toFinset.card = W.length :=
      List.toFinset_card_of_nodup hnodup
    have hsdiff : (W.toFinset \ t.who_has).card =
        W.length - (t.who_has ∩ W.toFinset).card := by
      rw [← Finset.sdiff_inter_self_left W.toFinset t.who_has,
        Finset.card_sdiff Finset.inter_subset_left, hWcard,
        Finset.inter_comm]
    have hcount_le : min (Replicate.n_missing n W t).toNat
        (bf * t.who_has.card) ≤ (W.toFinset \ t.who_has).card := by
      rw [hsdiff]
      unfold Replicate.n_missing
      omega
    have hscard : ((Replicate.sample W t.who_has
        (min (Replicate.n_missing n W t).toNat
          (bf * t.who_has.card))).toFinset).card =
        min (Replicate.n_missing n W t).toNat (bf * t.who_has.card) :=
      Replicate.sample_card W hnodup t.who_has _ hcount_le
    have hssub : (Replicate.sample W t.who_has
        (min (Replicate.n_missing n W t).toNat
          (bf * t.who_has.card))).toFinset ⊆ W.toFinset := by
      intro w hw
      exact (Replicate.sample_subset W t.who_has _ w
        (List.mem_toFinset.mp hw)).1
    have hsdisj : Disjoint (t.who_has ∩ W.toFinset)
        (Replicate.sample W t.who_has
          (min (Replicate.n_missing n W t).toNat
            (bf * t.who_has.card))).toFinset := by
      rw [Finset.disjoint_right]
      intro w hw hw2
      exact (Replicate.sample_subset W t.who_has _ w
        (List.mem_toFinset.mp hw)).2 (Finset.mem_inter.mp hw2).1
    rw [Finset.union_inter_distrib_right,
      Finset.inter_eq_left.mpr hssub,
      Finset.card_union_of_disjoint hsdisj, hscard]

/-- Holder sets of still-pending tasks stay non-empty across a round. -/
theorem Replicate.round_pending_ne (n bf : Nat) (W : List String)
    (pending : List Replicate.RTask)
    (h : ∀ t ∈ pending, t.who_has ≠ ∅) :
    ∀ t2 ∈ (Replicate.round n bf W pending).1, t2.who_has ≠ ∅ := by
  intro t2 h2
  unfold Replicate.round at h2
  simp only at h2
  obtain ⟨t, ht, hstep⟩ := List.mem_filterMap.mp h2
  have hsub := Replicate.step_who_has_mono n bf W t t2 hstep
  intro hempty
  exact h t ht (Finset.subset_empty.mp (hempty ▸ hsub))

/-- Every task removed from `tasks` in a round has at least `n` holders
among the candidate workers. -/
theorem Replicate.round_done_spec (n bf : Nat) (W : List String)
    (pending : List Replicate.RTask) :
    ∀ t ∈ (Replicate.round n bf W pending).2,
      n ≤ (t.who_has ∩ W.toFinset).card := by
  intro t ht
  unfold Replicate.round at ht
  simp only at ht
  obtain ⟨_, hcond⟩ := List.mem_filter.mp ht
  have h1 := of_decide_eq_true hcond
  unfold Replicate.n_missing at h1
  omega

/-- Each round strictly shrinks the remaining work, by at least one unit
per pending task. -/
theorem Replicate.round_measure (n bf : Nat) (W : List String)
    (hnodup : W.Nodup) (hn : n ≤ W.length) (hbf : 1 ≤ bf) :
    ∀ pending : List Replicate.RTask,
      (∀ t ∈ pending, t.who_has ≠ ∅) →
      Replicate.measure n W (Replicate.round n bf W pending).1 +
          pending.length ≤
        Replicate.measure n W pending := by
  intro pending
  induction pending with
  | nil => simp [Replicate.round, Replicate.measure]
  | cons t rest ih =>
    intro hne
    have hrest := ih (fun x hx => hne x (List.mem_cons_of_mem t hx))
    have hthis := hne t (List.mem_cons_self t rest)
    unfold Replicate.round Replicate.measure at hrest ⊢
    dsimp only at hrest
    simp only [List.filterMap_cons, List.map_cons, List.sum_cons,
      List.length_cons]
    cases hstep : Replicate.step n bf W t with
    | none =>
      dsimp only
      have hm : Replicate.n_missing n W t ≤ 0 := by
        unfold Replicate.step at hstep
        by_cases hc : Replicate.n_missing n W t ≤ 0
        · exact hc
        · rw [if_neg hc] at hstep
          exact absurd hstep (by simp)
      have hterm : n - (t.who_has ∩ W.toFinset).card = 0 := by
        unfold Replicate.n_missing at hm
        omega
      omega
    | some t2 =>
      dsimp only
      obtain ⟨hmin1, ha, hcard⟩ :=
        Replicate.step_some n bf W t t2 hnodup hn hthis hbf hstep
      simp only [List.map_cons, List.sum_cons]
      omega

/-- With fuel at least the remaining work, the `while tasks:` loop
empties `tasks`, and every finished task retains at least `n` holders
among the candidate workers. -/
theorem Replicate.loop_spec (n bf : Nat) (W : List String)
    (hnodup : W.Nodup) (hn : n ≤ W.length) (hbf : 1 ≤ bf) :
    ∀ (fuel : Nat) (pending done : List Replicate.RTask),
      Replicate.measure n W pending ≤ fuel →
      (∀ t ∈ pending, t.who_has ≠ ∅) →
      (∀ t ∈ done, n ≤ (t.who_has ∩ W.toFinset).card) →
      (Replicate.loop n bf W fuel pending done).1 = [] ∧
      (∀ t ∈ (Replicate.loop n bf W fuel pending done).2,
        n ≤ (t.who_has ∩ W.toFinset).card) := by
  intro fuel
  induction fuel with
  | zero =>
    intro pending done hm hne hdone
    have hp : pending = [] := by
      cases pending with
      | nil => rfl
      | cons t rest =>
        exfalso
        simp [Replicate.measure] at hm
    subst hp
    simpa [Replicate.loop] using hdone
  | succ fuel ih =>
    intro pending done hm hne hdone
    by_cases hp : pending = []
    · subst hp
      simpa [Replicate.loop] using hdone
    · have hloop : Replicate.loop n bf W (fuel + 1) pending done =
          Replicate.loop n bf W fuel (Replicate.round n bf W pending).1
            (done ++ (Replicate.round n bf W pending).2) := by
        simp [Replicate.loop, hp]
      rw [hloop]
      apply ih
      · have hdec := Replicate.round_measure n bf W hnodup hn hbf pending hne
        have hlen : 1 ≤ pending.length := by
          cases pending with
          | nil => exact absurd rfl hp
          | cons a l => simp
        omega
      · exact Replicate.round_pending_ne n bf W pending hne
      · intro t ht
        rcases List.mem_append.mp ht with h | h
        · exact hdone t h
        · exact Replicate.round_done_spec n bf W pending t h

/-- C8: assuming every gather RPC succeeds (each round applies its
sampled gathers), `replicate` terminates — `measure` many rounds suffice
— and on termination every key has at least `min(n, |candidate workers|)`
holders among the candidate workers; moreover in each round an
under-replicated key whose holders are candidate workers gains at most
`min(n - |holders|, branching_factor * |holders|)` new copies. -/
theorem Replicate.replicate_spec (n bf : Nat) (W : List String)
    (keys : List Replicate.RTask)
    (hnodup : W.Nodup) (hbf : 1 ≤ bf)
    (hne : ∀ t ∈ keys, t.who_has ≠ ∅) :
    ((Replicate.loop (Replicate.clampN n W) bf W
        (Replicate.measure (Replicate.clampN n W) W keys) keys []).1 = [] ∧
     (∀ t ∈ (Replicate.loop (Replicate.clampN n W) bf W
          (Replicate.measure (Replicate.clampN n W) W keys) keys []).2,
        min n W.length ≤ (t.who_has ∩ W.toFinset).card)) ∧
    (∀ t t2 : Replicate.RTask, t.who_has ⊆ W.toFinset →
      Replicate.step (Replicate.clampN n W) bf W t = some t2 →
      t2.who_has.card ≤ t.who_has.card +
        min (n - t.who_has.card) (bf * t.who_has.card)) := by
  constructor
  · exact Replicate.loop_spec (Replicate.clampN n W) bf W hnodup
      (Nat.min_le_right n W.length) hbf
      (Replicate.measure (Replicate.clampN n W) W keys) keys []
      (Nat.le_refl _) hne (by intro t ht; exact absurd ht (by simp))
  · intro t t2 hsub hstep
    unfold Replicate.step at hstep
    by_cases hm : Replicate.n_missing (Replicate.clampN n W) W t ≤ 0
    · rw [if_pos hm] at hstep
      exact absurd hstep (by simp)
    · rw [if_neg hm] at hstep
      injection hstep with heq
      subst heq
      have hinter : t.who_has ∩ W.toFinset = t.who_has :=
        Finset.inter_eq_left.mpr hsub
      have hslen : ((Replicate.sample W t.who_has
          (min (Replicate.n_missing (Replicate.clampN n W) W t).toNat
            (bf * t.who_has.card))).toFinset).card ≤
          min (Replicate.n_missing (Replicate.clampN n W) W t).toNat
            (bf * t.who_has.card) := by
        calc ((Replicate.sample W t.who_has _).toFinset).card
            ≤ (Replicate.sample W t.who_has _).length :=
              List.toFinset_card_le _
          _ ≤ _ := by
              unfold Replicate.sample
              rw [List.length_take]
              omega
      have hunion := Finset.card_union_le t.who_has
        ((Replicate.sample W t.who_has
          (min (Replicate.n_missing (Replicate.clampN n W) W t).toNat
            (bf * t.who_has.card))).toFinset)
      have hmv : (Replicate.n_missing (Replicate.clampN n W) W t).toNat ≤
          n - t.who_has.card := by
        unfold Replicate.n_missing Replicate.clampN at *
        rw [hinter] at *
        omega
      dsimp only
      omega

/-- Witness for C8: replicating one key held by `w1` to 2 copies among 3
candidate workers terminates with all keys done and at least
`min(2, 3) = 2` candidate holders. -/
theorem Replicate.replicate_spec_witness :
    (Replicate.loop (Replicate.clampN 2 ["w1", "w2", "w3"]) 1
        ["w1", "w2", "w3"]
        (Replicate.measure (Replicate.clampN 2 ["w1", "w2", "w3"])
          ["w1", "w2", "w3"] [⟨"k", {"w1"}⟩])
        [⟨"k", {"w1"}⟩] []).1 = [] ∧
    (∀ t ∈ (Replicate.loop (Replicate.clampN 2 ["w1", "w2", "w3"]) 1
        ["w1", "w2", "w3"]
        (Replicate.measure (Replicate.clampN 2 ["w1", "w2", "w3"])
          ["w1", "w2", "w3"] [⟨"k", {"w1"}⟩])
        [⟨"k", {"w1"}⟩] []).2,
      min 2 (["w1", "w2", "w3"] : List String).length ≤
        (t.who_has ∩ (["w1", "w2", "w3"] : List String).toFinset).card) :=
  (Replicate.replicate_spec 2 1 ["w1", "w2", "w3"] [⟨"k", {"w1"}⟩]
    (by decide) (by decide) (by decide)).1
